import Mathlib

/-!
Verification development for the raven-house/bridge-example repository.

The repository contains two bridge scripts (`src/bridge_l1_to_l2.ts`,
`src/bridge_l2_to_l1.ts`), account construction from environment
variables (`src/utils/create_account_from_env.ts`) and balance utilities
(`src/utils/balance.ts`).  The bridge orchestration core
(`CompliantBridge` / the per-direction step machine, the `networks`
table and `getToken`) lives in the external `@ravenhouse/bridge-sdk`
package and is not part of the repository sources; those parts are
modelled from the specification and are marked as such in their doc
comments.  Everything else is translated directly from the TypeScript
sources.
-/

/-! ## Step statuses and directions (spec §3) -/

/-- Status of a bridge step: `pending|loading|completed|error` (spec §3). -/
inductive StepStatus
  | pending
  | loading
  | completed
  | error
deriving DecidableEq, Repr

/-- Rank of a status under the order pending < loading < (completed, error)
used in spec §8 ("non-decreasing under the order"). -/
def StepStatus.rank : StepStatus → Nat
  | .pending => 0
  | .loading => 1
  | .completed => 2
  | .error => 2

/-- Bridge direction: L1→L2 or L2→L1. -/
inductive Direction
  | l1ToL2
  | l2ToL1
deriving DecidableEq, Repr

/-- Final record of one bridge step in the returned step history:
id and final status (spec §3, Bridge step). -/
structure BridgeStepRec where
  id : String
  status : StepStatus
deriving DecidableEq, Repr

/-- Modelled from the spec: the step id table of §4.1.  The external
SDK's step machine fixes the ordered step sequence per
(direction, isPrivate): four steps for L1→L2 (approve, deposit to
portal, wait for L2 message, claim on L2) and three for L2→L1 (burn on
L2, wait for inclusion + proof, finalize withdrawal on L1); the private
variants run the same step ids with different step semantics. -/
def stepIds : Direction → Bool → List String
  | .l1ToL2, _ =>
    ["approve-l1-allowance", "deposit-to-l2-portal",
     "wait-l2-message", "claim-on-l2"]
  | .l2ToL1, _ =>
    ["burn-on-l2", "wait-inclusion-and-proof",
     "finalize-withdrawal-on-l1"]

/-- Modelled from the spec: execution of the external SDK's step machine
(§4.1) over an outcome oracle `oc` giving each step's underlying chain
call result.  Steps run strictly in order; a successful step is recorded
`completed` and the machine continues; a failed step is recorded `error`
and the machine halts, leaving every later step `pending` and the run's
success flag `false`.  Returns the final step history and the overall
success flag of the `BridgeResult`. -/
def runSteps : List String → (String → Bool) → List BridgeStepRec × Bool
  | [], _ => ([], true)
  | i :: rest, oc =>
    if oc i then
      let r := runSteps rest oc
      (⟨i, .completed⟩ :: r.1, r.2)
    else
      (⟨i, .error⟩ :: rest.map (fun j => ⟨j, .pending⟩), false)

/-- Modelled from the spec: the ordered step-event stream (§4.4) of a
run.  Each step transitions pending→loading on start, then
loading→completed on success or loading→error on failure; the callback
is invoked once per transition, in step order, and the machine halts
after the first error. -/
def emitTrace : List String → (String → Bool) → List (String × StepStatus)
  | [], _ => []
  | i :: rest, oc =>
    if oc i then
      (i, .loading) :: (i, .completed) :: emitTrace rest oc
    else
      [(i, .loading), (i, .error)]

/-- Statuses of one step observed over time during a run: the initial
`pending` status followed by every status the event stream reports for
that step id, in stream order. -/
def observedStatuses (ids : List String) (oc : String → Bool)
    (sid : String) : List StepStatus :=
  .pending ::
    (emitTrace ids oc).filterMap
      (fun e => if e.1 = sid then some e.2 else none)

/-- Step ids in the order their steps were started (their `loading`
events), i.e. the emitted step id sequence of a run. -/
def emittedIds (ids : List String) (oc : String → Bool) : List String :=
  (emitTrace ids oc).filterMap
    (fun e => if e.2 = .loading then some e.1 else none)

/-! ## Balance utilities (src/utils/balance.ts) -/

/-- Embedding of `getL2TokenBalances` (balance.ts lines 36-48): the L2
token contract's two balance queries, each a fallible simulation.  The
`balance_of_public` / `balance_of_private` methods of the token contract
are modelled as functions from the owner address to a fallible result:
they either resolve with a balance or reject with an error message. -/
structure L2TokenMethods where
  balance_of_public : String → Except String Nat
  balance_of_private : String → Except String Nat

/-- Embedding of `Promise.all` over exactly two promises, as used in
`getL2TokenBalances`: resolves with the pair of both values when both
promises resolve, rejects as soon as either rejects (the public query's
rejection reported first, matching promise settlement order for an
already-rejected first promise). -/
def promiseAll2 {α β : Type} (a : Except String α) (b : Except String β) :
    Except String (α × β) :=
  match a, b with
  | .ok x, .ok y => .ok (x, y)
  | .error e, _ => .error e
  | .ok _, .error e => .error e

/-- Embedding of `getL2TokenBalances` (balance.ts lines 36-48): awaits
`Promise.all` of the public and private balance simulations for the
owner and returns the pair of both balances. -/
def getL2TokenBalances (tokenContract : L2TokenMethods)
    (ownerAddress : String) : Except String (Nat × Nat) :=
  promiseAll2 (tokenContract.balance_of_public ownerAddress)
    (tokenContract.balance_of_private ownerAddress)

/-- Chain state visible to the balance readers: L1 ERC20 balances keyed
by token address and owner address, and the L2 token's public and
private balances keyed by owner. -/
structure ChainState where
  l1Balances : String → String → Nat
  l2PublicBalances : String → Nat
  l2PrivateBalances : String → Nat

/-- Embedding of `l1Client.readContract` for the `balanceOf` entry of
`ERC20_ABI` (balance.ts lines 7-15, 20-31): the ABI declares
`stateMutability: view`, so the call reads the balance from chain state
and leaves the state unchanged.  State passing is explicit so that
freedom from side effects is part of the statement, not an assumption. -/
def readContractBalanceOf (st : ChainState)
    (tokenAddress walletAddress : String) : Nat × ChainState :=
  (st.l1Balances tokenAddress walletAddress, st)

/-- Embedding of `getL1TokenBalance` (balance.ts lines 20-31): delegates
to the view call `readContract balanceOf`. -/
def getL1TokenBalance (st : ChainState)
    (tokenAddress walletAddress : String) : Nat × ChainState :=
  readContractBalanceOf st tokenAddress walletAddress

/-- State-passing view of `getL2TokenBalances` (balance.ts lines 36-48):
both `simulate` calls are read-only simulations against chain state, so
each returns its balance and leaves the state unchanged; the result is
the (public, private) pair. -/
def getL2TokenBalancesRead (st : ChainState) (ownerAddress : String) :
    (Nat × Nat) × ChainState :=
  let pub := (st.l2PublicBalances ownerAddress, st)
  let prv := (pub.2.l2PrivateBalances ownerAddress, pub.2)
  ((pub.1, prv.1), prv.2)

/-! ## Balance formatting (src/utils/balance.ts `formatBalance`, viem `formatUnits`) -/

/-- Little-endian decimal digits of `n` with explicit fuel, so that the
function is structurally recursive and kernel-evaluable; `fuel ≥ n`
suffices for full expansion. -/
def decDigitsAux : Nat → Nat → List Nat
  | 0, _ => []
  | fuel + 1, n => if n = 0 then [] else n % 10 :: decDigitsAux fuel (n / 10)

/-- Little-endian decimal digits of `n` (empty for 0). -/
def decDigitsLE (n : Nat) : List Nat := decDigitsAux n n

/-- Decimal digit list of JavaScript `value.toString()` for a
non-negative bigint, most significant digit first; `0` renders as the
single digit 0. -/
def jsDecimalDigits (n : Nat) : List Nat :=
  if n = 0 then [0] else (decDigitsLE n).reverse

/-- JavaScript `fraction.replace(/(0+)$/, "")` on a digit list: drops
the maximal run of trailing zero digits. -/
def dropTrailingZeroDigits (l : List Nat) : List Nat :=
  (l.reverse.dropWhile (fun d => d == 0)).reverse

/-- JavaScript `display.padStart(decimals, "0")` on the digit list: the
decimal digit string left-padded with zeros to at least `decimals`
digits. -/
def paddedDigits (value decimals : Nat) : List Nat :=
  List.replicate (decimals - (jsDecimalDigits value).length) 0 ++
    jsDecimalDigits value

/-- Digit-level core of viem's `formatUnits` (the library called by
`formatBalance`, balance.ts lines 53-55): the decimal digit string of
the value is left-padded with zeros to at least `decimals` digits, the
last `decimals` digits become the fraction part (with trailing zeros
trimmed) and the remaining leading digits the integer part.  Returns
(integer digits, trimmed fraction digits). -/
def formatUnitsDigits (value decimals : Nat) : List Nat × List Nat :=
  ((paddedDigits value decimals).take
      ((paddedDigits value decimals).length - decimals),
   dropTrailingZeroDigits
     ((paddedDigits value decimals).drop
       ((paddedDigits value decimals).length - decimals)))

/-- Rendering of viem's `formatUnits`: integer digits (or "0" when the
integer slice is empty), then a dot and the fraction digits unless the
trimmed fraction is empty. -/
def formatUnits (value decimals : Nat) : String :=
  let p := formatUnitsDigits value decimals
  String.mk
    ((if p.1.isEmpty then ['0'] else p.1.map Nat.digitChar) ++
      (if p.2.isEmpty then [] else '.' :: p.2.map Nat.digitChar))

/-- Embedding of `formatBalance` (balance.ts lines 53-55): formats a
smallest-unit balance with the given decimal count via `formatUnits`.
Balances come from `balanceOf` (`uint256`) and the L2 balance queries,
so the amount is a natural number. -/
def formatBalance (balance : Nat) (decimals : Nat) : String :=
  formatUnits balance decimals

/-- Embedding of `formatBalance`'s default argument `decimals = 18`
(balance.ts line 53): the one-argument call sites (balance.ts lines
74, 77, 78) format with 18 decimals. -/
def formatBalanceDefault (balance : Nat) : String := formatBalance balance 18

/-- Value of a big-endian decimal digit list (used to state that
formatting loses no precision). -/
def ofDigitsBE (l : List Nat) : Nat := Nat.ofDigits 10 l.reverse

/-! ## Private key normalization (bridge scripts, both directions) -/

/-- Embedding of JavaScript `s.replace("0x", "")` with a string
pattern: removes the first occurrence of the two-character substring
"0x", scanning left to right; identity when the substring is absent. -/
def removeFirst0x : List Char → List Char
  | [] => []
  | c :: rest =>
    if c = '0' ∧ rest.head? = some 'x' then rest.tail
    else c :: removeFirst0x rest

/-- Embedding of the template
`0x$\x7bprivateKey.replace('0x', '')\x7d` used by both bridge scripts
(bridge_l1_to_l2.ts lines 104-106 and bridge_l2_to_l1.ts lines 205-207)
to build the argument of `privateKeyToAccount`. -/
def normalizedPrivateKey (privateKey : List Char) : List Char :=
  '0' :: 'x' :: removeFirst0x privateKey

/-- Hexadecimal digit characters, the alphabet of the body of an
Ethereum private key. -/
def isHexDigitChar (c : Char) : Bool :=
  "0123456789abcdefABCDEF".data.contains c

/-! ## BRIDGE_PRIVATE flag (bridge scripts, both directions) -/

/-- Embedding of
`const BRIDGE_PRIVATE = process.env.BRIDGE_PRIVATE === 'true'`
(bridge_l1_to_l2.ts line 58 and bridge_l2_to_l1.ts line 159): an unset
variable is `undefined`, modelled as `none`; strict equality against the
exact string "true" selects private mode, every other value (including
"TRUE", "1", "yes") yields public mode, and no value is rejected. -/
def BRIDGE_PRIVATE (envVar : Option String) : Bool :=
  envVar == some "true"

/-! ## Script-level orchestration flow (bridge scripts + create_account_from_env.ts) -/

/-- L1 side of a token descriptor (spec §3). -/
structure TokenL1 where
  tokenAddress : String
  portalAddress : String
deriving DecidableEq, Repr

/-- L2 side of a token descriptor (spec §3). -/
structure TokenL2 where
  tokenAddress : String
  bridgeAddress : String
deriving DecidableEq, Repr

/-- Token descriptor (spec §3): symbol, name and layer addresses. -/
structure Token where
  symbol : String
  name : String
  l1 : TokenL1
  l2 : TokenL2
deriving DecidableEq, Repr

/-- Network configuration entry: environment name and configured token
list (spec §6). -/
structure NetworkConfig where
  name : String
  tokens : List Token
deriving DecidableEq, Repr

/-- Environment-name validity as checked by both scripts: `AZTEC_ENV`
must be one of devnet, sandbox, testnet (bridge_l1_to_l2.ts lines
61-72). -/
def validEnvName (s : String) : Bool :=
  s = "devnet" || s = "sandbox" || s = "testnet"

/-- Modelled from the spec: the SDK `networks` table, keyed by the three
supported environment names (spec §6 "Must support at least three named
environments"); the contents of each entry are abstracted as `cfg`, and
indexing with any other name yields `undefined`, modelled as `none`. -/
def networks (cfg : String → NetworkConfig) (envName : String) :
    Option NetworkConfig :=
  if validEnvName envName then some (cfg envName) else none

/-- Modelled from the spec: `CompliantBridge.getToken` (spec §4.2)
resolves a token symbol to its descriptor in the network configuration,
returning not-found when the symbol is absent. -/
def getToken (nc : NetworkConfig) (symbol : String) : Option Token :=
  nc.tokens.find? (fun t => t.symbol == symbol)

/-- Process environment visible to the scripts: the five variables the
claims are about, each possibly unset. -/
structure Env where
  aztecEnv : Option String
  ethereumWalletPrivateKey : Option String
  adminSecretKey : Option String
  adminSigningKey : Option String
  adminSalt : Option String
deriving Repr

/-- Embedding of `const ENV = process.env.AZTEC_ENV || 'devnet'`
(bridge_l1_to_l2.ts line 61). -/
def resolvedEnvName (e : Env) : String := e.aztecEnv.getD "devnet"

/-- Externally visible actions of a bridge script run, in program
order. -/
inductive Ev
  | createL1Client
  | connectNode
  | createWallet
  | registerFpc
  | nodeGetContract (addr : String)
  | registerContract (addr : String)
  | readBalances
  | bridgeCall (d : Direction)
  | stepEmit (sid : String)
deriving DecidableEq, Repr

/-- Which script actions talk to a chain node: `waitForNode` polls the
L2 node until it responds, `node.getContract` queries it, balance
logging reads both chains, and the bridge call performs the chain
operations of the run.  Local client/wallet construction and local
contract registration make no chain calls. -/
def chainInteraction : Ev → Bool
  | .connectNode => true
  | .nodeGetContract _ => true
  | .readBalances => true
  | .bridgeCall _ => true
  | _ => false

/-- Step emissions and the bridge call itself: the actions that C6/C7
say must never happen after a configuration error. -/
def isBridgeOp : Ev → Bool
  | .bridgeCall _ => true
  | .stepEmit _ => true
  | _ => false

/-- Configuration and setup errors a script run can abort with. -/
inductive ConfigError
  | invalidEnv
  | missingEthKey
  | missingAdminSecret
  | missingAdminSigning
  | missingAdminSalt
  | noTokens
  | bridgeContractNotFound
  | tokenContractNotFound
  | tokenNotFound
deriving DecidableEq, Repr

/-- Embedding of the credential checks of `createAccountFromEnv`
(create_account_from_env.ts lines 18-38): `ADMIN_SECRET_KEY`,
`ADMIN_SIGNING_KEY` and `ADMIN_SALT` are checked in that order and a
missing one throws. -/
def createAccountFromEnvCheck (e : Env) : Option ConfigError :=
  match e.adminSecretKey with
  | none => some .missingAdminSecret
  | some _ =>
    match e.adminSigningKey with
    | none => some .missingAdminSigning
    | some _ =>
      match e.adminSalt with
      | none => some .missingAdminSalt
      | some _ => none

/-- Embedding of the control flow of `main` shared by both bridge
scripts (bridge_l1_to_l2.ts lines 57-293, bridge_l2_to_l1.ts lines
158-396), recording the script's externally visible actions in order
and the configuration error it aborts with, if any:

1. resolve `networks[ENV]`, exiting on an unknown environment name
   (before `main`, lines 61-72);
2. check `ETHEREUM_WALLET_PRIVATE_KEY` (lines 97-102), then build the
   L1 client, connect to the Aztec node via `waitForNode` and create the
   test wallet (lines 104-134);
3. run the `createAccountFromEnv` credential checks (line 137);
4. register the sponsored FPC, then fetch and register the bridge and
   token contracts of the first configured token via `node.getContract`,
   throwing when a contract is not deployed (lines 142-165, with
   `nodeContracts` telling which addresses host a contract, and a token
   list with no entry faulting at `tokens[0]`);
5. resolve the bridged token via `getToken`, throwing when the symbol is
   not configured (lines 191-194);
6. log balances, run the bridge (emitting its step events), and log
   balances again (lines 218-277).

The step machine's outcome oracle `oc` drives the step events emitted
during the bridge call. -/
def mainScript (cfg : String → NetworkConfig) (e : Env) (dir : Direction)
    (isPrivate : Bool) (nodeContracts : String → Bool) (symbol : String)
    (oc : String → Bool) : List Ev × Option ConfigError :=
  match networks cfg (resolvedEnvName e) with
  | none => ([], some .invalidEnv)
  | some nc =>
    match e.ethereumWalletPrivateKey with
    | none => ([], some .missingEthKey)
    | some _ =>
      let t0 := [Ev.createL1Client, Ev.connectNode, Ev.createWallet]
      match createAccountFromEnvCheck e with
      | some err => (t0, some err)
      | none =>
        let t1 := t0 ++ [Ev.registerFpc]
        match nc.tokens.head? with
        | none => (t1, some .noTokens)
        | some tok0 =>
          let t2 := t1 ++ [Ev.nodeGetContract tok0.l2.bridgeAddress]
          if nodeContracts tok0.l2.bridgeAddress then
            let t3 := t2 ++ [Ev.registerContract tok0.l2.bridgeAddress,
                             Ev.nodeGetContract tok0.l2.tokenAddress]
            if nodeContracts tok0.l2.tokenAddress then
              let t4 := t3 ++ [Ev.registerContract tok0.l2.tokenAddress]
              match getToken nc symbol with
              | none => (t4, some .tokenNotFound)
              | some _ =>
                (t4 ++ [Ev.readBalances, Ev.bridgeCall dir] ++
                   (emitTrace (stepIds dir isPrivate) oc).map
                     (fun ev => Ev.stepEmit ev.1) ++
                   [Ev.readBalances],
                 none)
            else (t3, some .tokenContractNotFound)
          else (t2, some .bridgeContractNotFound)

/-! ## Concrete fixtures used by witnesses and counterexamples -/

/-- Concrete RHT-like token descriptor. -/
def tokenRHT : Token :=
  { symbol := "RHT", name := "Raven House Token",
    l1 := { tokenAddress := "0xa1", portalAddress := "0xa2" },
    l2 := { tokenAddress := "0xb1", bridgeAddress := "0xb2" } }

/-- Concrete network-configuration contents: every environment carries
the single RHT token. -/
def cfg0 : String → NetworkConfig :=
  fun s => { name := s, tokens := [tokenRHT] }

/-- Fully populated process environment. -/
def envFull : Env :=
  { aztecEnv := some "devnet", ethereumWalletPrivateKey := some "ab",
    adminSecretKey := some "0x11", adminSigningKey := some "0x12",
    adminSalt := some "0x13" }

/-- Process environment with an unknown environment name and all
credentials present. -/
def envBadEnv : Env :=
  { aztecEnv := some "mainnet", ethereumWalletPrivateKey := some "ab",
    adminSecretKey := some "0x11", adminSigningKey := some "0x12",
    adminSalt := some "0x13" }

/-- Process environment with `ADMIN_SECRET_KEY` unset and everything
else present. -/
def envNoAdminSecret : Env :=
  { aztecEnv := some "devnet", ethereumWalletPrivateKey := some "ab",
    adminSecretKey := none, adminSigningKey := some "0x12",
    adminSalt := some "0x13" }

/-- Outcome oracle failing exactly the deposit step. -/
def ocFailDeposit : String → Bool :=
  fun s => !(s == "deposit-to-l2-portal")

/-! ## Theorems -/

/-- C4: for every owner, the L2 balance read resolves with the
(public, private) pair exactly when both underlying queries resolve,
with exactly their two values; consequently if either query fails the
whole read fails and no one-sided partial result is ever returned.
Both queries are issued unconditionally (both are arguments of the
single `Promise.all`). -/
theorem l2_balances_both_or_fail :
    ∀ (tc : L2TokenMethods) (owner : String) (p q : Nat),
      (getL2TokenBalances tc owner = Except.ok (p, q) ↔
        (tc.balance_of_public owner = Except.ok p ∧
         tc.balance_of_private owner = Except.ok q)) ∧
      (getL2TokenBalances tc owner).isOk =
        ((tc.balance_of_public owner).isOk &&
          (tc.balance_of_private owner).isOk) := by
  intro tc owner p q
  constructor
  · cases hp : tc.balance_of_public owner <;>
      cases hq : tc.balance_of_private owner <;>
        simp [getL2TokenBalances, promiseAll2, hp, hq]
  · cases hp : tc.balance_of_public owner <;>
      cases hq : tc.balance_of_private owner <;>
        simp [getL2TokenBalances, promiseAll2, hp, hq, Except.isOk,
          Except.toBool]

/-- C8: balance reads are idempotent and side-effect free: reading the
L1 balance twice in a row yields the same value and returns the chain
state unchanged, and likewise for the L2 (public, private) pair read. -/
theorem balance_reads_idempotent :
    ∀ (st : ChainState) (tokenAddress walletAddress owner : String),
      (getL1TokenBalance st tokenAddress walletAddress).1 =
        (getL1TokenBalance (getL1TokenBalance st tokenAddress walletAddress).2
          tokenAddress walletAddress).1 ∧
      (getL1TokenBalance (getL1TokenBalance st tokenAddress walletAddress).2
        tokenAddress walletAddress).2 = st ∧
      (getL2TokenBalancesRead st owner).1 =
        (getL2TokenBalancesRead (getL2TokenBalancesRead st owner).2 owner).1 ∧
      (getL2TokenBalancesRead (getL2TokenBalancesRead st owner).2 owner).2 =
        st := by
  intro st tokenAddress walletAddress owner
  exact ⟨rfl, rfl, rfl, rfl⟩

/-- Helper: on a string of hexadecimal digit characters there is no
occurrence of the substring "0x" (the character x is not a hex digit),
so the JavaScript replace is the identity. -/
theorem removeFirst0x_of_hex (h : List Char)
    (hhex : ∀ c ∈ h, isHexDigitChar c = true) : removeFirst0x h = h := by
  induction h with
  | nil => rfl
  | cons c rest ih =>
    have hcond : ¬(c = '0' ∧ rest.head? = some 'x') := by
      rintro ⟨-, hx⟩
      cases rest with
      | nil => exact Option.noConfusion hx
      | cons r rs =>
        have hr : r = 'x' := Option.some.inj hx
        have : isHexDigitChar r = true :=
          hhex r (List.mem_cons_of_mem _ (List.mem_cons_self r rs))
        rw [hr] at this
        exact absurd this (by decide)
    rw [removeFirst0x, if_neg hcond,
      ih (fun d hd => hhex d (List.mem_cons_of_mem _ hd))]

/-- C9: both bridge scripts pass the private key through
`replace("0x", "")` and re-prepend "0x"; on any hexadecimal key body the
replace removes exactly the leading "0x" prefix when present and is the
identity otherwise, so the key with the prefix and the key without it
normalize to the same string and hence derive the same L1 account. -/
theorem private_key_normalization :
    ∀ (h : List Char), (∀ c ∈ h, isHexDigitChar c = true) →
      normalizedPrivateKey ('0' :: 'x' :: h) = normalizedPrivateKey h ∧
      normalizedPrivateKey h = '0' :: 'x' :: h := by
  intro h hhex
  have hid : removeFirst0x h = h := removeFirst0x_of_hex h hhex
  constructor
  · show '0' :: 'x' :: removeFirst0x ('0' :: 'x' :: h) = _
    rw [removeFirst0x, if_pos ⟨rfl, rfl⟩]
    show '0' :: 'x' :: h = _
    rw [normalizedPrivateKey, hid]
  · rw [normalizedPrivateKey, hid]

/-- C9 witness: instantiated at the concrete hexadecimal key body
"ab". -/
theorem private_key_normalization_witness :
    normalizedPrivateKey ('0' :: 'x' :: ['a', 'b']) =
      normalizedPrivateKey ['a', 'b'] ∧
    normalizedPrivateKey ['a', 'b'] = '0' :: 'x' :: ['a', 'b'] :=
  private_key_normalization ['a', 'b'] (by decide)

/-- C10: private transfer mode is selected exactly when the
`BRIDGE_PRIVATE` environment variable is the exact string "true"; any
other value — unset, "TRUE", "1", "yes", "false" — selects public mode,
and no value is rejected (the flag is a total boolean). -/
theorem bridge_private_flag :
    (∀ v : Option String, BRIDGE_PRIVATE v = true ↔ v = some "true") ∧
    BRIDGE_PRIVATE none = false ∧
    BRIDGE_PRIVATE (some "TRUE") = false ∧
    BRIDGE_PRIVATE (some "1") = false ∧
    BRIDGE_PRIVATE (some "yes") = false ∧
    BRIDGE_PRIVATE (some "false") = false := by
  refine ⟨fun v => ?_, by decide, by decide, by decide, by decide, by decide⟩
  simp [BRIDGE_PRIVATE]

/-- Helper: complete characterization of a step machine run.  Either
every step's underlying operation succeeds — then the history is all
`completed`, the success flag is true and the event stream holds a
loading/completed pair per step in order — or the step sequence splits
around a first failing step: the prefix completes, the failing step is
recorded `error`, every later step stays `pending`, the success flag is
false, and the event stream stops at the failing step's error event. -/
theorem machine_shape (ids : List String) (oc : String → Bool) :
    ((∀ i ∈ ids, oc i = true) ∧
      runSteps ids oc = (ids.map (fun i => ⟨i, StepStatus.completed⟩), true) ∧
      emitTrace ids oc =
        ids.flatMap (fun i => [(i, StepStatus.loading), (i, StepStatus.completed)])) ∨
    (∃ pre b post, ids = pre ++ b :: post ∧
      (∀ i ∈ pre, oc i = true) ∧ oc b = false ∧
      runSteps ids oc =
        (pre.map (fun i => ⟨i, StepStatus.completed⟩) ++
          ⟨b, StepStatus.error⟩ :: post.map (fun j => ⟨j, StepStatus.pending⟩),
         false) ∧
      emitTrace ids oc =
        pre.flatMap (fun i => [(i, StepStatus.loading), (i, StepStatus.completed)]) ++
          [(b, StepStatus.loading), (b, StepStatus.error)]) := by
  induction ids with
  | nil => exact Or.inl ⟨by simp, rfl, rfl⟩
  | cons i rest ih =>
    by_cases h : oc i
    · rcases ih with ⟨hall, hrun, htr⟩ | ⟨pre, b, post, hids, hpre, hb, hrun, htr⟩
      · refine Or.inl ⟨?_, ?_, ?_⟩
        · intro x hx
          rcases List.mem_cons.mp hx with hx | hx
          · exact hx ▸ h
          · exact hall x hx
        · simp [runSteps, h, hrun]
        · simp [emitTrace, h, htr]
      · refine Or.inr ⟨i :: pre, b, post, by simp [hids], ?_, hb, ?_, ?_⟩
        · intro x hx
          rcases List.mem_cons.mp hx with hx | hx
          · exact hx ▸ h
          · exact hpre x hx
        · simp [runSteps, h, hrun]
        · simp [emitTrace, h, htr]
    · refine Or.inr ⟨[], i, rest, rfl, by simp, ?_, ?_, ?_⟩
      · exact Bool.eq_false_iff.mpr h
      · simp [runSteps, h]
      · simp [emitTrace, h]

/-- C1: if a step of a bridge run ends in `error`, the machine halts:
the run's success flag is false, the step history splits as the
completed prefix, the erroring step, and a pending suffix — already
completed steps keep their `completed` status, and no subsequent step is
ever started (its id never occurs in the event stream). -/
theorem bridge_run_halts_on_error :
    ∀ (d : Direction) (p : Bool) (oc : String → Bool) (st : BridgeStepRec),
      st ∈ (runSteps (stepIds d p) oc).1 → st.status = StepStatus.error →
      (runSteps (stepIds d p) oc).2 = false ∧
      ∃ pre post,
        stepIds d p = pre ++ st.id :: post ∧
        (runSteps (stepIds d p) oc).1 =
          pre.map (fun i => ⟨i, StepStatus.completed⟩) ++
            st :: post.map (fun j => ⟨j, StepStatus.pending⟩) ∧
        ∀ j ∈ post, ∀ s, (j, s) ∉ emitTrace (stepIds d p) oc := by
  intro d p oc st hmem herr
  have hnd : (stepIds d p).Nodup := by cases d <;> cases p <;> decide
  rcases machine_shape (stepIds d p) oc with
    ⟨-, hrun, -⟩ | ⟨pre, b, post, hids, -, -, hrun, htr⟩
  · rw [hrun] at hmem
    rcases List.mem_map.mp hmem with ⟨i, -, hi⟩
    rw [← hi] at herr
    simp at herr
  · rw [hrun] at hmem
    have hst : st = ⟨b, StepStatus.error⟩ := by
      rcases List.mem_append.mp hmem with hl | hr
      · rcases List.mem_map.mp hl with ⟨i, -, hi⟩
        rw [← hi] at herr
        simp at herr
      · rcases List.mem_cons.mp hr with hl | hr2
        · exact hl
        · rcases List.mem_map.mp hr2 with ⟨j, -, hj⟩
          rw [← hj] at herr
          simp at herr
    subst hst
    rw [hrun]
    refine ⟨rfl, pre, post, hids, rfl, ?_⟩
    rw [hids] at hnd
    rcases List.nodup_append.mp hnd with ⟨-, hnc, hdisj⟩
    intro j hj s hjs
    rw [htr] at hjs
    rcases List.mem_append.mp hjs with hl | hr
    · rcases List.mem_flatMap.mp hl with ⟨i, hi, hji⟩
      have hij : j = i := by
        rcases List.mem_cons.mp hji with hx | hx
        · exact congrArg Prod.fst hx
        · rcases List.mem_cons.mp hx with hx | hx
          · exact congrArg Prod.fst hx
          · exact absurd hx (List.not_mem_nil _)
      exact hdisj (hij ▸ hi) (List.mem_cons_of_mem _ hj)
    · have hjb : j = b := by
        rcases List.mem_cons.mp hr with hx | hx
        · exact congrArg Prod.fst hx
        · rcases List.mem_cons.mp hx with hx | hx
          · exact congrArg Prod.fst hx
          · exact absurd hx (List.not_mem_nil _)
      exact (List.nodup_cons.mp hnc).1 (hjb ▸ hj)

/-- C1 witness: a public L1→L2 run whose deposit step fails has the
erroring deposit step in its history and reports overall failure. -/
theorem bridge_run_halts_on_error_witness :
    (⟨"deposit-to-l2-portal", StepStatus.error⟩ : BridgeStepRec) ∈
      (runSteps (stepIds Direction.l1ToL2 false) ocFailDeposit).1 ∧
    (runSteps (stepIds Direction.l1ToL2 false) ocFailDeposit).2 = false := by
  have h := bridge_run_halts_on_error Direction.l1ToL2 false ocFailDeposit
    ⟨"deposit-to-l2-portal", StepStatus.error⟩ (by decide) rfl
  exact ⟨by decide, h.1⟩

/-- Helper: the observations a single step id contributes to the
loading/completed pairs of a list of successful steps: exactly
(loading, completed) when the id is one of them, nothing otherwise. -/
theorem filter_trace_flatMap (sid : String) :
    ∀ l : List String, l.Nodup →
      (l.flatMap
          (fun i => [(i, StepStatus.loading), (i, StepStatus.completed)])).filterMap
          (fun e => if e.1 = sid then some e.2 else none) =
        if sid ∈ l then [StepStatus.loading, StepStatus.completed] else [] := by
  intro l
  induction l with
  | nil => intro _; simp
  | cons i rest ih =>
    intro hnd
    rcases List.nodup_cons.mp hnd with ⟨hni, hrest⟩
    rw [List.flatMap_cons, List.filterMap_append, ih hrest]
    by_cases hsi : i = sid
    · subst hsi
      rw [if_neg hni, if_pos (List.mem_cons_self i rest)]
      simp
    · simp [hsi, List.mem_cons, (Ne.symm hsi : sid ≠ i)]

/-- C2: over any run, the statuses observed for any single step id form
one of three sequences — [pending] (never started), [pending, loading,
completed] or [pending, loading, error] — so every step starts pending,
reaches a terminal status only after loading, and its observed status is
non-decreasing under pending < loading < (completed, error): no step
regresses and none is observed completed or error without having been in
loading. -/
theorem step_status_monotone :
    ∀ (d : Direction) (p : Bool) (oc : String → Bool) (sid : String),
      (observedStatuses (stepIds d p) oc sid = [StepStatus.pending] ∨
        observedStatuses (stepIds d p) oc sid =
          [StepStatus.pending, StepStatus.loading, StepStatus.completed] ∨
        observedStatuses (stepIds d p) oc sid =
          [StepStatus.pending, StepStatus.loading, StepStatus.error]) ∧
      List.Chain' (fun a b => a.rank ≤ b.rank)
        (observedStatuses (stepIds d p) oc sid) := by
  intro d p oc sid
  have hnd : (stepIds d p).Nodup := by cases d <;> cases p <;> decide
  have hforms : observedStatuses (stepIds d p) oc sid = [StepStatus.pending] ∨
      observedStatuses (stepIds d p) oc sid =
        [StepStatus.pending, StepStatus.loading, StepStatus.completed] ∨
      observedStatuses (stepIds d p) oc sid =
        [StepStatus.pending, StepStatus.loading, StepStatus.error] := by
    rcases machine_shape (stepIds d p) oc with
      ⟨-, -, htr⟩ | ⟨pre, b, post, hids, -, -, -, htr⟩
    · rw [observedStatuses, htr, filter_trace_flatMap sid _ hnd]
      by_cases hm : sid ∈ stepIds d p
      · rw [if_pos hm]; right; left; rfl
      · rw [if_neg hm]; left; rfl
    · have hndpre : pre.Nodup := by
        rw [hids] at hnd
        exact (List.nodup_append.mp hnd).1
      have hdisj : pre.Disjoint (b :: post) := by
        rw [hids] at hnd
        exact (List.nodup_append.mp hnd).2.2
      rw [observedStatuses, htr, List.filterMap_append,
        filter_trace_flatMap sid pre hndpre]
      by_cases hsb : b = sid
      · subst hsb
        have hbpre : b ∉ pre := fun hc => hdisj hc (List.mem_cons_self b post)
        rw [if_neg hbpre]
        right; right; simp
      · have h2 : ([(b, StepStatus.loading),
            (b, StepStatus.error)].filterMap
              (fun e => if e.1 = sid then some e.2 else none)) = [] := by
          simp [hsb]
        rw [h2]
        by_cases hm : sid ∈ pre
        · rw [if_pos hm]; right; left; rfl
        · rw [if_neg hm]; left; rfl
  refine ⟨hforms, ?_⟩
  rcases hforms with h | h | h <;> rw [h] <;>
    simp [List.chain'_cons, StepStatus.rank]

/-- Helper: when every step's operation succeeds, the step ids emitted
as loading events are exactly the configured step sequence, in order. -/
theorem emittedIds_all_ok (ids : List String) (oc : String → Bool) :
    (∀ i ∈ ids, oc i = true) → emittedIds ids oc = ids := by
  induction ids with
  | nil => intro _; rfl
  | cons i rest ih =>
    intro hall
    have h : oc i = true := hall i (List.mem_cons_self i rest)
    have ihr := ih (fun x hx => hall x (List.mem_cons_of_mem _ hx))
    rw [emittedIds] at ihr ⊢
    simp only [emitTrace, h, if_true, List.filterMap_cons]
    simp [ihr]

/-- C3: the emitted step id sequence is a deterministic function of
(direction, isPrivate) matching the table of spec §4.1 — four steps
(approve, deposit to portal, wait for L2 message, claim on L2) for
L1→L2 and three steps (burn on L2, wait for inclusion + proof, finalize
withdrawal on L1) for L2→L1, identical for public and private mode —
and a failure-free run emits exactly that sequence in order. -/
theorem step_sequence_matches_table :
    ∀ (p : Bool) (oc : String → Bool),
      stepIds Direction.l1ToL2 p =
        ["approve-l1-allowance", "deposit-to-l2-portal",
         "wait-l2-message", "claim-on-l2"] ∧
      stepIds Direction.l2ToL1 p =
        ["burn-on-l2", "wait-inclusion-and-proof",
         "finalize-withdrawal-on-l1"] ∧
      ∀ d : Direction, (∀ i ∈ stepIds d p, oc i = true) →
        emittedIds (stepIds d p) oc = stepIds d p := by
  intro p oc
  refine ⟨by cases p <;> rfl, by cases p <;> rfl, ?_⟩
  intro d hall
  exact emittedIds_all_ok _ oc hall

/-- C3 witness: with every operation succeeding, the public L1→L2 run
emits its four step ids and the private L2→L1 run its three, in table
order. -/
theorem step_sequence_matches_table_witness :
    emittedIds (stepIds Direction.l1ToL2 false) (fun _ => true) =
      stepIds Direction.l1ToL2 false ∧
    emittedIds (stepIds Direction.l2ToL1 true) (fun _ => true) =
      stepIds Direction.l2ToL1 true := by
  have h1 := step_sequence_matches_table false (fun _ => true)
  have h2 := step_sequence_matches_table true (fun _ => true)
  exact ⟨h1.2.2 Direction.l1ToL2 (fun i _ => rfl),
    h2.2.2 Direction.l2ToL1 (fun i _ => rfl)⟩

/-- Helper: the fuel-indexed decimal expansion is correct once the fuel
covers the value. -/
theorem ofDigits_decDigitsAux :
    ∀ (fuel n : Nat), n ≤ fuel →
      Nat.ofDigits 10 (decDigitsAux fuel n) = n := by
  intro fuel
  induction fuel with
  | zero =>
    intro n hn
    have : n = 0 := Nat.le_zero.mp hn
    subst this
    rfl
  | succ fuel ih =>
    intro n hn
    rw [decDigitsAux]
    by_cases h : n = 0
    · subst h; simp
    · rw [if_neg h, Nat.ofDigits_cons,
        ih (n / 10) (by
          have : n / 10 < n := Nat.div_lt_self (Nat.pos_of_ne_zero h)
            (by norm_num)
          omega)]
      omega

/-- Helper: the value of the JavaScript decimal rendering is the
rendered number. -/
theorem ofDigitsBE_jsDecimalDigits (n : Nat) :
    ofDigitsBE (jsDecimalDigits n) = n := by
  rw [jsDecimalDigits]
  by_cases h : n = 0
  · subst h; simp [ofDigitsBE, Nat.ofDigits]
  · rw [if_neg h, ofDigitsBE, List.reverse_reverse, decDigitsLE]
    exact ofDigits_decDigitsAux n n le_rfl

/-- Helper: big-endian digit concatenation scales the high part by ten
to the length of the low part. -/
theorem ofDigitsBE_append (xs ys : List Nat) :
    ofDigitsBE (xs ++ ys) = ofDigitsBE xs * 10 ^ ys.length + ofDigitsBE ys := by
  rw [ofDigitsBE, List.reverse_append, Nat.ofDigits_append, ofDigitsBE,
    ofDigitsBE, List.length_reverse]
  ring

/-- Helper: an all-zero digit list has value zero. -/
theorem ofDigits_zero_list :
    ∀ l : List Nat, (∀ x ∈ l, x = 0) → Nat.ofDigits 10 l = 0 := by
  intro l
  induction l with
  | nil => intro _; rfl
  | cons x rest ih =>
    intro hz
    rw [Nat.ofDigits_cons, hz x (List.mem_cons_self x rest),
      ih (fun y hy => hz y (List.mem_cons_of_mem _ hy))]

/-- Helper: trimming trailing zeros only divides out a power of ten, so
no value is lost: the original fraction digits are the trimmed digits
scaled by ten to the number of removed positions. -/
theorem dropTrailing_spec (l : List Nat) :
    ofDigitsBE l =
        ofDigitsBE (dropTrailingZeroDigits l) *
          10 ^ (l.length - (dropTrailingZeroDigits l).length) ∧
      (dropTrailingZeroDigits l).length ≤ l.length := by
  have hsplit : dropTrailingZeroDigits l ++
      (l.reverse.takeWhile (fun d => d == 0)).reverse = l := by
    rw [dropTrailingZeroDigits, ← List.reverse_append,
      List.takeWhile_append_dropWhile, List.reverse_reverse]
  have hlen : (dropTrailingZeroDigits l).length +
      ((l.reverse.takeWhile (fun d => d == 0)).reverse).length = l.length := by
    rw [← List.length_append, hsplit]
  have hTz : ofDigitsBE ((l.reverse.takeWhile (fun d => d == 0)).reverse) = 0 := by
    rw [ofDigitsBE, List.reverse_reverse]
    apply ofDigits_zero_list
    intro x hx
    have := List.mem_takeWhile_imp hx
    simpa using this
  constructor
  · have happ := ofDigitsBE_append (dropTrailingZeroDigits l)
      ((l.reverse.takeWhile (fun d => d == 0)).reverse)
    rw [hsplit, hTz] at happ
    have hexp : ((l.reverse.takeWhile (fun d => d == 0)).reverse).length =
        l.length - (dropTrailingZeroDigits l).length := by omega
    rw [happ, hexp]
    ring
  · omega

/-- C5: `formatBalance` renders by exact fixed-point scaling with the
token's decimal count: the concrete smallest-unit amount
1500000000000000000 with 18 decimals renders as the string "1.5"; the
one-argument form defaults to 18 decimals; and in general the rendered
integer and fraction digit groups reconstruct the original smallest-unit
value exactly (no precision is lost), with the fraction carrying at most
`decimals` digits. -/
theorem format_balance_exact :
    formatBalance 1500000000000000000 18 = "1.5" ∧
    (∀ b : Nat, formatBalanceDefault b = formatUnits b 18) ∧
    ∀ v d : Nat,
      ofDigitsBE (formatUnitsDigits v d).1 * 10 ^ d +
          ofDigitsBE (formatUnitsDigits v d).2 *
            10 ^ (d - (formatUnitsDigits v d).2.length) = v ∧
        (formatUnitsDigits v d).2.length ≤ d := by
  refine ⟨rfl, fun b => rfl, ?_⟩
  intro v d
  have hplen : d ≤ (paddedDigits v d).length := by
    rw [paddedDigits, List.length_append, List.length_replicate]
    omega
  have hdroplen :
      ((paddedDigits v d).drop ((paddedDigits v d).length - d)).length = d := by
    rw [List.length_drop]
    omega
  have hpval : ofDigitsBE (paddedDigits v d) = v := by
    have hrep : ofDigitsBE
        (List.replicate (d - (jsDecimalDigits v).length) 0) = 0 := by
      rw [ofDigitsBE, List.reverse_replicate]
      exact ofDigits_zero_list _ (by simp [List.mem_replicate])
    rw [paddedDigits, ofDigitsBE_append, hrep, ofDigitsBE_jsDecimalDigits]
    simp
  have hIF : ofDigitsBE
        ((paddedDigits v d).take ((paddedDigits v d).length - d)) * 10 ^ d +
      ofDigitsBE
        ((paddedDigits v d).drop ((paddedDigits v d).length - d)) = v := by
    have happ := ofDigitsBE_append
      ((paddedDigits v d).take ((paddedDigits v d).length - d))
      ((paddedDigits v d).drop ((paddedDigits v d).length - d))
    rw [List.take_append_drop, hdroplen, hpval] at happ
    exact happ.symm
  obtain ⟨hfr_val, hfr_len⟩ :=
    dropTrailing_spec ((paddedDigits v d).drop ((paddedDigits v d).length - d))
  rw [hdroplen] at hfr_val hfr_len
  refine ⟨?_, hfr_len⟩
  show ofDigitsBE
        ((paddedDigits v d).take ((paddedDigits v d).length - d)) * 10 ^ d +
      ofDigitsBE (formatUnitsDigits v d).2 *
        10 ^ (d - (formatUnitsDigits v d).2.length) = v
  rw [formatUnitsDigits, ← hfr_val]
  exact hIF

/-- C6: a token symbol absent from the network configuration makes
`getToken` return not-found, and a script run with such a symbol is
rejected before any step is emitted and before the bridge call begins:
its whole event trace is free of step emissions and bridge calls. -/
theorem getToken_unknown_rejects :
    ∀ sym : String,
      (∀ nc : NetworkConfig, (∀ t ∈ nc.tokens, t.symbol ≠ sym) →
        getToken nc sym = none) ∧
      ∀ (cfg : String → NetworkConfig) (e : Env) (dir : Direction)
        (p : Bool) (nodeContracts : String → Bool) (oc : String → Bool),
        (∀ s : String, ∀ t ∈ (cfg s).tokens, t.symbol ≠ sym) →
        (mainScript cfg e dir p nodeContracts sym oc).1.all
          (fun ev => !isBridgeOp ev) = true := by
  intro sym
  have habs : ∀ nc : NetworkConfig, (∀ t ∈ nc.tokens, t.symbol ≠ sym) →
      getToken nc sym = none := by
    intro nc h
    rw [getToken, List.find?_eq_none]
    intro t ht
    simp [h t ht]
  refine ⟨habs, ?_⟩
  intro cfg e dir p nodeContracts oc hall
  rcases hnet : networks cfg (resolvedEnvName e) with _ | nc
  · simp [mainScript, hnet]
  · have hnc : nc = cfg (resolvedEnvName e) := by
      rw [networks] at hnet
      by_cases hv : validEnvName (resolvedEnvName e)
      · rw [if_pos hv] at hnet
        exact (Option.some.inj hnet).symm
      · rw [if_neg hv] at hnet
        exact Option.noConfusion hnet
    have hgt : getToken nc sym = none := by
      refine habs nc ?_
      rw [hnc]
      exact hall (resolvedEnvName e)
    rcases hpk : e.ethereumWalletPrivateKey with _ | pk
    · simp [mainScript, hnet, hpk]
    · rcases hacc : createAccountFromEnvCheck e with _ | err
      · rcases hh : nc.tokens.head? with _ | tok0
        · simp [mainScript, hnet, hpk, hacc, hh, isBridgeOp]
        · by_cases hb : nodeContracts tok0.l2.bridgeAddress
          · by_cases ht : nodeContracts tok0.l2.tokenAddress
            · simp [mainScript, hnet, hpk, hacc, hh, hb, ht, hgt, isBridgeOp]
            · simp [mainScript, hnet, hpk, hacc, hh, hb, ht, isBridgeOp]
          · simp [mainScript, hnet, hpk, hacc, hh, hb, isBridgeOp]
      · simp [mainScript, hnet, hpk, hacc, isBridgeOp]

/-- C6 witness: with "UNKNOWN" absent from the concrete configuration,
the lookup returns not-found and the run's event trace holds no step
emission and no bridge call. -/
theorem getToken_unknown_rejects_witness :
    getToken (cfg0 "devnet") "UNKNOWN" = none ∧
    (mainScript cfg0 envFull Direction.l1ToL2 false (fun _ => true)
        "UNKNOWN" (fun _ => true)).1.all (fun ev => !isBridgeOp ev) = true := by
  have h := getToken_unknown_rejects "UNKNOWN"
  refine ⟨h.1 (cfg0 "devnet") ?_,
    h.2 cfg0 envFull Direction.l1ToL2 false (fun _ => true) (fun _ => true) ?_⟩
  · intro t htm
    simp [cfg0] at htm
    subst htm
    decide
  · intro s t htm
    simp [cfg0] at htm
    subst htm
    decide

/-- Helper: the credential check of `createAccountFromEnv` only ever
reports one of the three missing-credential errors. -/
theorem createAccountFromEnvCheck_cases (e : Env) :
    ∀ err, createAccountFromEnvCheck e = some err →
      err = ConfigError.missingAdminSecret ∨
      err = ConfigError.missingAdminSigning ∨
      err = ConfigError.missingAdminSalt := by
  intro err h
  rcases hs1 : e.adminSecretKey with _ | s1
  · simp [createAccountFromEnvCheck, hs1] at h
    exact Or.inl h.symm
  · rcases hs2 : e.adminSigningKey with _ | s2
    · simp [createAccountFromEnvCheck, hs1, hs2] at h
      exact Or.inr (Or.inl h.symm)
    · rcases hs3 : e.adminSalt with _ | s3
      · simp [createAccountFromEnvCheck, hs1, hs2, hs3] at h
        exact Or.inr (Or.inr h.symm)
      · simp [createAccountFromEnvCheck, hs1, hs2, hs3] at h

/-- C7 (amended): an unknown environment name or a missing
`ETHEREUM_WALLET_PRIVATE_KEY` aborts the run with an empty event trace —
before any chain interaction; a missing `ADMIN_SECRET_KEY`,
`ADMIN_SIGNING_KEY` or `ADMIN_SALT` is also fatal but its abort happens
after L1 client construction, the L2 node connection and wallet
creation, so only before any bridge operation, not before every chain
interaction; and every configuration error leaves the event trace free
of step emissions and bridge calls.  A missing `ADMIN_SECRET_KEY` (with
a valid environment and the L1 key present) always surfaces as that
fatal error. -/
theorem config_error_aborts :
    ∀ (cfg : String → NetworkConfig) (e : Env) (dir : Direction) (p : Bool)
      (nodeContracts : String → Bool) (sym : String) (oc : String → Bool),
      (((mainScript cfg e dir p nodeContracts sym oc).2 =
          some ConfigError.invalidEnv ∨
        (mainScript cfg e dir p nodeContracts sym oc).2 =
          some ConfigError.missingEthKey) →
        (mainScript cfg e dir p nodeContracts sym oc).1 = []) ∧
      (((mainScript cfg e dir p nodeContracts sym oc).2 =
          some ConfigError.missingAdminSecret ∨
        (mainScript cfg e dir p nodeContracts sym oc).2 =
          some ConfigError.missingAdminSigning ∨
        (mainScript cfg e dir p nodeContracts sym oc).2 =
          some ConfigError.missingAdminSalt) →
        (mainScript cfg e dir p nodeContracts sym oc).1 =
          [Ev.createL1Client, Ev.connectNode, Ev.createWallet]) ∧
      ((mainScript cfg e dir p nodeContracts sym oc).2 ≠ none →
        (mainScript cfg e dir p nodeContracts sym oc).1.all
          (fun ev => !isBridgeOp ev) = true) ∧
      ((networks cfg (resolvedEnvName e)).isSome →
        e.ethereumWalletPrivateKey ≠ none →
        e.adminSecretKey = none →
        (mainScript cfg e dir p nodeContracts sym oc).2 =
          some ConfigError.missingAdminSecret) := by
  intro cfg e dir p nodeContracts sym oc
  have hconj4 : (networks cfg (resolvedEnvName e)).isSome →
      e.ethereumWalletPrivateKey ≠ none →
      e.adminSecretKey = none →
      (mainScript cfg e dir p nodeContracts sym oc).2 =
        some ConfigError.missingAdminSecret := by
    intro hns hpkne hsec
    rcases hn2 : networks cfg (resolvedEnvName e) with _ | nc
    · rw [hn2] at hns
      simp at hns
    · rcases hp2 : e.ethereumWalletPrivateKey with _ | pk
      · exact absurd hp2 hpkne
      · have hchk : createAccountFromEnvCheck e =
            some ConfigError.missingAdminSecret := by
          rw [createAccountFromEnvCheck, hsec]
        simp [mainScript, hn2, hp2, hchk]
  refine ⟨?_, ?_, ?_, hconj4⟩ <;>
    · rcases hnet : networks cfg (resolvedEnvName e) with _ | nc
      · simp [mainScript, hnet]
      · rcases hpk : e.ethereumWalletPrivateKey with _ | pk
        · simp [mainScript, hnet, hpk]
        · rcases hacc : createAccountFromEnvCheck e with _ | err
          · rcases hh : nc.tokens.head? with _ | tok0
            · simp [mainScript, hnet, hpk, hacc, hh, isBridgeOp]
            · by_cases hb : nodeContracts tok0.l2.bridgeAddress
              · by_cases htc : nodeContracts tok0.l2.tokenAddress
                · rcases hgt : getToken nc sym with _ | tok
                  · simp [mainScript, hnet, hpk, hacc, hh, hb, htc, hgt,
                      isBridgeOp]
                  · simp [mainScript, hnet, hpk, hacc, hh, hb, htc, hgt,
                      isBridgeOp]
                · simp [mainScript, hnet, hpk, hacc, hh, hb, htc, isBridgeOp]
              · simp [mainScript, hnet, hpk, hacc, hh, hb, isBridgeOp]
          · rcases createAccountFromEnvCheck_cases e err hacc with h3 | h3 | h3 <;>
              subst h3 <;> simp [mainScript, hnet, hpk, hacc, isBridgeOp]

/-- C7 counterexample: with a valid environment and L1 key but
`ADMIN_SECRET_KEY` unset, the run aborts with that configuration error,
yet its event trace already contains a chain interaction (the L2 node
connection), refuting "aborts before any chain interaction takes
place". -/
theorem config_error_after_chain_interaction :
    (mainScript cfg0 envNoAdminSecret Direction.l1ToL2 false (fun _ => true)
        "RHT" (fun _ => true)).2 = some ConfigError.missingAdminSecret ∧
    (mainScript cfg0 envNoAdminSecret Direction.l1ToL2 false (fun _ => true)
        "RHT" (fun _ => true)).1.any chainInteraction = true := by
  exact ⟨by decide, by decide⟩

/-- C7 witness: the amended behavior at concrete inputs — an unknown
environment aborts with an empty trace, and a missing admin secret
aborts with exactly the client/node/wallet setup trace. -/
theorem config_error_aborts_witness :
    (mainScript cfg0 envBadEnv Direction.l1ToL2 false (fun _ => true)
        "RHT" (fun _ => true)).1 = [] ∧
    (mainScript cfg0 envNoAdminSecret Direction.l1ToL2 false (fun _ => true)
        "RHT" (fun _ => true)).2 = some ConfigError.missingAdminSecret ∧
    (mainScript cfg0 envNoAdminSecret Direction.l1ToL2 false (fun _ => true)
        "RHT" (fun _ => true)).1 =
      [Ev.createL1Client, Ev.connectNode, Ev.createWallet] := by
  have h1 := config_error_aborts cfg0 envBadEnv Direction.l1ToL2 false
    (fun _ => true) "RHT" (fun _ => true)
  have h2 := config_error_aborts cfg0 envNoAdminSecret Direction.l1ToL2 false
    (fun _ => true) "RHT" (fun _ => true)
  have hsec := h2.2.2.2 (by decide) (by decide) rfl
  exact ⟨h1.1 (Or.inl (by decide)), hsec, h2.2.1 (Or.inl hsec)⟩

